import Mathlib

/-!
Verification of `pyannote/database/util.py`.

We shallowly embed the utility functions of the file — `merge_dict_inplace`,
`load_rttm`, `load_stm`, `load_lst`, `get_annotated`, `get_unique_identifier`
and `LabelMapper.__call__` — as executable Lean definitions and prove the
specified properties about them.

Python dictionaries are modelled as insertion-ordered association lists;
in-place mutation becomes explicit value passing (the aliasing behaviour of
`d.get(k, {})` — returning the very object stored at `d[k]` when the key is
present, and a fresh unattached `{}` otherwise — is rendered explicitly: the
result of a recursive merge is written back to `d[k]` exactly when the key
was already present).
-/

namespace PyannoteDB

/-- A Python value as it occurs in the nested configuration dictionaries
handled by `merge_dict_inplace`: a scalar (modelled by integers and strings,
enough for every claim) or a nested string-keyed dict. -/
inductive Val where
  | int (n : Int)
  | str (s : String)
  | dict (entries : List (String × Val))

/-- Is the value a Python `dict` (the `isinstance(v, dict)` test)? -/
def Val.isDict : Val → Bool
  | .dict _ => true
  | _ => false

/-- Ordered association-list lookup: Python `d.get(k)` / `d[k]`. -/
def dlookup (es : List (String × Val)) (k : String) : Option Val :=
  match es with
  | [] => none
  | (k', v) :: rest => if k' = k then some v else dlookup rest k

/-- Python `d[k] = v` on an insertion-ordered dict: update the value in
place when the key is present (keeping its position), append otherwise. -/
def dset (es : List (String × Val)) (k : String) (v : Val) :
    List (String × Val) :=
  match es with
  | [] => [(k, v)]
  | (k', v') :: rest =>
      if k' = k then (k', v) :: rest else (k', v') :: dset rest k v

/-- Errors `merge_dict_inplace` can raise: the `RuntimeError` of the
overwrite check, or Python's own `TypeError`/`AttributeError` when the
recursive call receives a non-dict as its first argument. -/
inductive MergeErr where
  | overwrite (k : String) (old new : Val)
  | typeError

/-- `merge_dict_inplace(d, target, allow_overwrite, overwrite_exception)`
from `util.py`, with the in-place mutation of `d` made explicit: the
function returns the final state of `d` (or the raised error).

Faithful points of the source:
* for a dict-valued entry `(k, v)` the code runs
  `v2 = d.get(k, {}); merge_dict_inplace(v2, v)` — the recursive call uses
  the *default* policy (`allow_overwrite=True`, `overwrite_exception=False`)
  whatever the caller passed, and its result reaches `d` only through
  aliasing: when `k` was present `v2` *is* `d[k]` and the mutation lands in
  `d`; when `k` was absent `v2` is a fresh dict that is never stored in `d`,
  so `d` is left unchanged at `k` (the merged content is discarded);
* when `k` is present but `d[k]` is not a dict, the recursive call receives
  a non-dict first argument and any non-empty `v` makes it raise a
  `TypeError`/`AttributeError` on its first item (an empty `v` makes the
  loop body run zero times and nothing happens);
* for a non-dict value the code raises `RuntimeError` exactly when the key
  is present, `allow_overwrite` is false and `overwrite_exception` is true,
  assigns `d[k] = v` when the key is absent or `allow_overwrite` is true,
  and silently skips otherwise. -/
def merge_dict_inplace (d : List (String × Val)) (target : List (String × Val))
    (allow_overwrite : Bool) (overwrite_exception : Bool) :
    Except MergeErr (List (String × Val)) :=
  match target with
  | [] => .ok d
  | (k, v) :: rest =>
    match v with
    | .dict tv =>
      match dlookup d k with
      | some (.dict w) =>
          match merge_dict_inplace w tv true false with
          | .error e => .error e
          | .ok w' =>
              merge_dict_inplace (dset d k (.dict w')) rest
                allow_overwrite overwrite_exception
      | some _ =>
          if tv.isEmpty then
            merge_dict_inplace d rest allow_overwrite overwrite_exception
          else .error .typeError
      | none =>
          match merge_dict_inplace [] tv true false with
          | .error e => .error e
          | .ok _ =>
              merge_dict_inplace d rest allow_overwrite overwrite_exception
    | _ =>
      match dlookup d k with
      | some old =>
          if ¬ allow_overwrite ∧ overwrite_exception then
            .error (.overwrite k old v)
          else if allow_overwrite then
            merge_dict_inplace (dset d k v) rest
              allow_overwrite overwrite_exception
          else
            merge_dict_inplace d rest allow_overwrite overwrite_exception
      | none =>
          merge_dict_inplace (dset d k v) rest
            allow_overwrite overwrite_exception
termination_by sizeOf target
decreasing_by all_goals (simp_wf <;> omega)

/-- With `overwrite_exception = false` — in particular under the default
policy every recursive call of `merge_dict_inplace` uses — the merge never
raises the overwrite `RuntimeError`: any error it propagates is a
`TypeError`. -/
theorem merge_excFalse_error_is_typeError :
    ∀ (d t : List (String × Val)) (allow exc : Bool), exc = false →
      ∀ e, merge_dict_inplace d t allow exc = .error e → e = .typeError := by
  intro d t allow exc
  induction d, t, allow, exc using merge_dict_inplace.induct with
  | case1 d a o =>
      intro _ e h; simp [merge_dict_inplace] at h
  | case2 d a o k rest tv w hlk e' hinner ih =>
      intro _ e h
      have he' := ih rfl e' hinner
      simp only [merge_dict_inplace, hlk, hinner] at h
      cases h; exact he'
  | case3 d a o k rest tv w hlk w' hinner ih ih2 =>
      intro hexc e h
      simp only [merge_dict_inplace, hlk, hinner] at h
      exact ih2 hexc e h
  | case4 d a o k rest tv val hval hlk htv ih =>
      intro hexc e h
      simp only [merge_dict_inplace, hlk, htv] at h
      cases val <;> simp_all
  | case5 d a o k rest tv val hval hlk htv =>
      intro hexc e h
      simp only [merge_dict_inplace, hlk, htv] at h
      cases val <;> simp_all
  | case6 d a o k rest tv hlk e' hinner ih =>
      intro _ e h
      have he' := ih rfl e' hinner
      simp only [merge_dict_inplace, hlk, hinner] at h
      cases h; exact he'
  | case7 d a o k rest tv hlk w' hinner ih ih2 =>
      intro hexc e h
      simp only [merge_dict_inplace, hlk, hinner] at h
      exact ih2 hexc e h
  | case8 d a o k v rest old hlk hcond hval =>
      intro hexc e h
      exact absurd hcond.2 (by simp [hexc])
  | case9 d o k v rest old hlk hval hcond ih =>
      intro hexc e h
      cases v <;> simp only [merge_dict_inplace, hlk] at h <;>
        first
          | exact absurd rfl (hval _)
          | · simp only [hcond, if_neg, Bool.not_true, false_and, if_false,
                if_true] at h
              exact ih hexc e (by simpa using h)
  | case10 d a o k v rest old hlk hcond hallow hval ih =>
      intro hexc e h
      cases v <;> simp only [merge_dict_inplace, hlk] at h <;>
        first
          | exact absurd rfl (hval _)
          | · rw [if_neg hcond, if_neg (by simp [hallow])] at h
              exact ih hexc e h
  | case11 d a o k v rest hlk hval ih =>
      intro hexc e h
      cases v <;> simp only [merge_dict_inplace, hlk] at h <;>
        first
          | exact absurd rfl (hval _)
          | exact ih hexc e h

/-- C1: evaluation of `merge_dict_inplace` at the failing input. The worked
example with the key present in `d` does merge recursively, but merging a
nested mapping under a key *absent* from `d` leaves `d` unchanged: the
fresh `{}` produced by `d.get(k, {})` is merged into and then discarded,
so the key and its merged contents never appear in `d` — contradicting the
function's own docstring ("Add all changes from target to dictionary d"). -/
theorem merge_dict_inplace_absent_key_drops_nested :
    merge_dict_inplace [] [("a", Val.dict [("y", Val.int 2)])] true false
      = .ok []
    ∧ merge_dict_inplace [("a", Val.dict [("x", Val.int 1)])]
        [("a", Val.dict [("y", Val.int 2)])] true false
      = .ok [("a", Val.dict [("x", Val.int 1), ("y", Val.int 2)])] := by
  constructor <;> simp [merge_dict_inplace, dlookup, dset]

/-- C6: for a key whose target value is a nested mapping, the merge behaves
identically whatever `allow_overwrite` / `overwrite_exception` the caller
passed (the recursive call always uses the default policy), and under that
default policy the merge can never raise the overwrite `RuntimeError` — so
nested scalar conflicts are always resolved by overwriting and never raise,
even under `allow_overwrite=false, overwrite_exception=true`. -/
theorem merge_dict_inplace_nested_uses_default_policy :
    (∀ (d : List (String × Val)) (k : String) (tv : List (String × Val))
        (allow exc : Bool),
        merge_dict_inplace d [(k, Val.dict tv)] allow exc
          = merge_dict_inplace d [(k, Val.dict tv)] true false)
    ∧ (∀ (d t : List (String × Val)) (k : String) (old new : Val),
        merge_dict_inplace d t true false ≠ .error (.overwrite k old new)) := by
  constructor
  · intro d k tv allow exc
    cases hlk : dlookup d k with
    | some v =>
        cases v with
        | dict w =>
            cases hinner : merge_dict_inplace w tv true false <;>
              simp [merge_dict_inplace, hlk, hinner]
        | int n =>
            by_cases htv : tv.isEmpty <;> simp [merge_dict_inplace, hlk, htv]
        | str s =>
            by_cases htv : tv.isEmpty <;> simp [merge_dict_inplace, hlk, htv]
    | none =>
        cases hinner : merge_dict_inplace [] tv true false <;>
          simp [merge_dict_inplace, hlk, hinner]
  · intro d t k old new h
    have := merge_excFalse_error_is_typeError d t true false rfl _ h
    cases this

/-- Witness for C6: a nested scalar conflict under
`allow_overwrite=false, overwrite_exception=true` behaves exactly as under
the default policy — the nested value is overwritten and no error is
raised. -/
theorem merge_dict_inplace_nested_uses_default_policy_witness :
    merge_dict_inplace [("a", Val.dict [("x", Val.int 1)])]
        [("a", Val.dict [("x", Val.int 2)])] false true
      = merge_dict_inplace [("a", Val.dict [("x", Val.int 1)])]
        [("a", Val.dict [("x", Val.int 2)])] true false
    ∧ merge_dict_inplace [("a", Val.dict [("x", Val.int 1)])]
        [("a", Val.dict [("x", Val.int 2)])] false true
      = .ok [("a", Val.dict [("x", Val.int 2)])]
    ∧ merge_dict_inplace [("a", Val.int 1)] [("a", Val.int 2)] true false
      ≠ .error (.overwrite "a" (Val.int 1) (Val.int 2)) :=
  ⟨merge_dict_inplace_nested_uses_default_policy.1 _ "a" _ false true,
   by simp [merge_dict_inplace, dlookup, dset],
   merge_dict_inplace_nested_uses_default_policy.2 _ _ "a" _ _⟩

/-- Single scalar-valued entry: closed form of the merge step. -/
theorem merge_single_scalar_eq
    (d : List (String × Val)) (k : String) (v : Val) (allow exc : Bool)
    (hv : v.isDict = false) :
    merge_dict_inplace d [(k, v)] allow exc =
      match dlookup d k with
      | some old =>
          if ¬ allow ∧ exc then .error (.overwrite k old v)
          else if allow then .ok (dset d k v) else .ok d
      | none => .ok (dset d k v) := by
  cases v with
  | dict es => simp [Val.isDict] at hv
  | int n =>
      cases hlk : dlookup d k <;>
        cases allow <;> cases exc <;> simp [merge_dict_inplace, hlk]
  | str s =>
      cases hlk : dlookup d k <;>
        cases allow <;> cases exc <;> simp [merge_dict_inplace, hlk]

/-- C7: for a non-mapping value under key `k`, the call raises exactly when
`k` already exists in `d`, `allow_overwrite` is false and
`overwrite_exception` is true; when `k` exists, `allow_overwrite` is false
and `overwrite_exception` is false, `d` keeps its old value at `k`; in all
other cases `d[k]` is set to the target's value. -/
theorem merge_dict_inplace_scalar_semantics
    (d : List (String × Val)) (k : String) (v : Val) (allow exc : Bool)
    (hv : v.isDict = false) :
    (∀ old, dlookup d k = some old → allow = false → exc = true →
        merge_dict_inplace d [(k, v)] allow exc
          = .error (.overwrite k old v))
    ∧ (∀ old, dlookup d k = some old → allow = false → exc = false →
        merge_dict_inplace d [(k, v)] allow exc = .ok d)
    ∧ (dlookup d k = none ∨ allow = true →
        merge_dict_inplace d [(k, v)] allow exc = .ok (dset d k v))
    ∧ (∀ e, merge_dict_inplace d [(k, v)] allow exc = .error e →
        (∃ old, dlookup d k = some old) ∧ allow = false ∧ exc = true) := by
  rw [merge_single_scalar_eq d k v allow exc hv]
  refine ⟨?_, ?_, ?_, ?_⟩
  · intro old hold ha he; simp [hold, ha, he]
  · intro old hold ha he; simp [hold, ha, he]
  · rintro (hold | ha)
    · simp [hold]
    · cases hlk : dlookup d k <;> simp [hlk, ha]
  · intro e h
    cases hlk : dlookup d k <;> rw [hlk] at h
    · simp at h
    · cases allow <;> cases exc <;> simp_all

/-- Witness for C7: the spec's two concrete tests, obtained from the general
theorem — `merge_dict_inplace({"a":1}, {"a":2}, false, true)` raises the
overwrite error, and with `overwrite_exception=false` it leaves
`d["a"] == 1`. -/
theorem merge_dict_inplace_scalar_semantics_witness :
    merge_dict_inplace [("a", Val.int 1)] [("a", Val.int 2)] false true
      = .error (.overwrite "a" (Val.int 1) (Val.int 2))
    ∧ merge_dict_inplace [("a", Val.int 1)] [("a", Val.int 2)] false false
      = .ok [("a", Val.int 1)] :=
  ⟨(merge_dict_inplace_scalar_semantics [("a", Val.int 1)] "a" (Val.int 2)
      false true rfl).1 (Val.int 1) rfl rfl rfl,
   (merge_dict_inplace_scalar_semantics [("a", Val.int 1)] "a" (Val.int 2)
      false false rfl).2.1 (Val.int 1) rfl rfl rfl⟩

/-! ### The pyannote.core data model used by the loaders

`Segment`, `Timeline` and `Annot` are external library types
(`pyannote.core`); the loaders only construct them from
`(start, end, label, uri)` tuples.  Endpoints are modelled by integers:
no claim here depends on fractional time values.  An `Annot` is its
insertion-ordered list of `(segment, track, label)` entries, exactly what
the loaders build through `annotation[segment, i] = label`. -/

/-- `pyannote.core.Segment` — a time interval `[start, stop)`
(field `end` in the source formats; `end` is a Lean keyword). -/
structure Segment where
  start : Int
  stop : Int
deriving DecidableEq, Repr

/-- `pyannote.core.Timeline` restricted to what the code constructs and
returns: the (ordered) list of its segments plus the optional uri. -/
structure Timeline where
  segments : List Segment
  uri : Option String
deriving DecidableEq, Repr

/-- One `(segment, track) -> label` entry of an Annot, as written by
`annotation[segment, i] = label`. -/
structure Track where
  segment : Segment
  track : Nat
  label : String
deriving DecidableEq, Repr

/-- `pyannote.core.Annotation`: uri plus the insertion-ordered tracks. -/
structure Annot where
  uri : Option String
  tracks : List Track
deriving DecidableEq, Repr

/-- Association-list lookup, the generic model of Python `dict` access
(`m.get(k)`); insertion order is the list order. -/
def alookup {β : Type} (es : List (String × β)) (k : String) : Option β :=
  match es with
  | [] => none
  | (k', v) :: rest => if k' = k then some v else alookup rest k

/-! ### RTTM / STM loaders

`pd.read_csv` parses the whitespace-delimited file into rows carrying a
global 0-based index (the default `RangeIndex` over the whole file);
`data.groupby("uri")` yields, for each uri occurring in the file, the
rows of that uri in file order *keeping their global index*, which
`iterrows()` hands to the loop as `i`.  The resulting Python dict is
modelled extensionally, as the lookup function `String → Option
Annot`; every uri of the file gets an entry. -/

/-- One parsed row of an RTTM file (columns the loader consumes; the
`NA*` placeholder columns are read and discarded). -/
structure RttmRow where
  ty : String
  uri : String
  start : Int
  duration : Int
  speaker : String
deriving DecidableEq, Repr

/-- One parsed row of an STM file (`usecols=[0, 2, 3, 4]`:
uri, speaker, start, end). -/
structure StmRow where
  uri : String
  speaker : String
  start : Int
  stop : Int
deriving DecidableEq, Repr

/-- The rows of one `groupby("uri")` group, with their global `pd.read_csv`
row index attached — what `turns.iterrows()` yields for that uri. -/
def groupRows {α : Type} (uriOf : α → String) (rows : List α) (u : String) :
    List (Nat × α) :=
  rows.enum.filter (fun p => uriOf p.2 = u)

/-- `annotation[Segment(start, start + duration), i] = speaker` for an RTTM
row carrying global index `i`. -/
def rttmTrack (p : Nat × RttmRow) : Track :=
  { segment := ⟨p.2.start, p.2.start + p.2.duration⟩
    track := p.1
    label := p.2.speaker }

/-- `load_rttm` from `util.py`: group rows by uri, skip rows whose type
differs from `keep_type` (`if turn.type != keep_type: continue`), and build
one Annot per uri of the file. -/
def load_rttm (rows : List RttmRow) (keep_type : String) :
    String → Option Annot :=
  fun u =>
    if u ∈ rows.map (·.uri) then
      some { uri := some u
             tracks := (groupRows (·.uri) rows u).filterMap
               (fun p => if p.2.ty ≠ keep_type then none
                         else some (rttmTrack p)) }
    else none

/-- `annotation[Segment(start, end), i] = speaker` for an STM row carrying
global index `i`. -/
def stmTrack (p : Nat × StmRow) : Track :=
  { segment := ⟨p.2.start, p.2.stop⟩
    track := p.1
    label := p.2.speaker }

/-- `load_stm` from `util.py`: group rows by uri and build one Annot
per uri of the file (no type filter). -/
def load_stm (rows : List StmRow) : String → Option Annot :=
  fun u =>
    if u ∈ rows.map (·.uri) then
      some { uri := some u
             tracks := (groupRows (·.uri) rows u).map stmTrack }
    else none

/-! ### `load_lst` -/

/-- Python `fp.readlines()` on the file's character content: splits after
every newline, the final chunk (if the file does not end in a newline)
kept without one; never yields an empty line. -/
def splitLines (cs : List Char) : List (List Char) :=
  match cs with
  | [] => []
  | c :: cs' =>
      if c = '\n' then ['\n'] :: splitLines cs'
      else
        match splitLines cs' with
        | [] => [[c]]
        | l :: ls => (c :: l) :: ls

/-- `fp.readlines()` at the `String` level. -/
def readlines (contents : String) : List String :=
  (splitLines contents.data).map String.mk

/-- Python `str.strip()`: remove leading and trailing whitespace
(the ASCII whitespace relevant to these files). -/
def pyStrip (s : String) : String :=
  String.mk (((s.data.dropWhile Char.isWhitespace).reverse.dropWhile
    Char.isWhitespace).reverse)

/-- `load_lst` from `util.py`:
`lines = fp.readlines(); return [line.strip() for line in lines]`. -/
def load_lst (contents : String) : List String :=
  (readlines contents).map pyStrip

/-! ### Item records (`current_file`) and their consumers -/

/-- The `current_file` record supplied by the protocol layer, restricted to
the keys read by the functions under verification; `none` models an absent
(or null) key. -/
structure Item where
  database : Option String
  uri : Option String
  channel : Option Int
  annotated : Option Timeline
  duration : Option Int
  annot : Option Annot

/-- Which `warnings.warn` call (if any) `get_annotated` issues. -/
inductive Warned where
  | noWarning
  | durationApprox
  | extentFallback
deriving DecidableEq, Repr

/-- `annotation.get_timeline().extent()` — the smallest segment covering
all of the annotation's segments (library call into `pyannote.core`; the
value on an empty annotation is immaterial to every claim here). -/
def extent (a : Annot) : Segment :=
  match a.tracks.map (·.segment) with
  | [] => ⟨0, 0⟩
  | s :: rest =>
      ⟨rest.foldl (fun m seg => min m seg.start) s.start,
       rest.foldl (fun m seg => max m seg.stop) s.stop⟩

/-- `get_annotated` from `util.py`, with the emitted warning made part of
the result: `annotated` verbatim when present; else a single-interval
timeline `[0, duration)` with a warning; else the `annotation` extent as a
single-interval timeline with the stronger warning; a KeyError when none
of the three keys is present. -/
def get_annotated (item : Item) : Except String (Timeline × Warned) :=
  match item.annotated with
  | some t => .ok (t, .noWarning)
  | none =>
      match item.duration with
      | some d => .ok (⟨[⟨0, d⟩], none⟩, .durationApprox)
      | none =>
          match item.annot with
          | some a => .ok (⟨[extent a], none⟩, .extentFallback)
          | none => .error "KeyError: annotation"

/-- `get_unique_identifier` from `util.py`: `"{database}/" + uri +
"_{channel}"`, prefix and suffix present exactly when the corresponding
key is present and non-null; a KeyError when `uri` is absent
(`item["uri"]`). -/
def get_unique_identifier (item : Item) : Except String String :=
  match item.uri with
  | none => .error "KeyError: uri"
  | some u =>
      .ok ((match item.database with
            | some db => db ++ "/"
            | none => "") ++ u ++
           (match item.channel with
            | some c => "_" ++ toString c
            | none => ""))

/-! ### LabelMapper -/

/-- The labels present in an annotation (`Annotation.labels()` returns the
set of track labels; which order the set iterates in is irrelevant here —
`set.pop()` reports an arbitrary element). -/
def annLabels (a : Annot) : List String :=
  (a.tracks.map (·.label)).dedup

/-- The labels of `a` that have no entry in the mapping —
`set(annotation.labels()) - set(mapping)`. -/
def missingLabels (mapping : List (String × String)) (a : Annot) :
    List String :=
  (annLabels a).filter (fun l => (alookup mapping l).isNone)

/-- `pyannote.core.Annotation.rename_labels(mapping=mapping)` (library
call): a new annotation in which every label is passed through the
mapping, labels without an entry kept unchanged. -/
def rename_labels (mapping : List (String × String)) (a : Annot) :
    Annot :=
  { a with
    tracks := a.tracks.map fun t =>
      { t with label := (alookup mapping t.label).getD t.label } }

/-- Errors `LabelMapper.__call__` can raise: the KeyError of
`current_file["annotation"]`, or the ValueError naming a label with no
mapping. -/
inductive MapperErr where
  | keyError
  | noMappingFor (label : String)
deriving DecidableEq, Repr

/-- `LabelMapper.__call__` from `util.py`: with `keep_missing` false,
first compute the labels of `current_file["annotation"]` missing from the
mapping and raise a ValueError naming one of them if any exist; otherwise
(and always when `keep_missing` is true) return
`current_file["annotation"].rename_labels(mapping)`.  The model picks the
first missing label where `set.pop()` picks an arbitrary one. -/
def labelMapperCall (mapping : List (String × String)) (keep_missing : Bool)
    (item : Item) : Except MapperErr Annot :=
  match item.annot with
  | none => .error .keyError
  | some a =>
      if ¬ keep_missing then
        match missingLabels mapping a with
        | l :: _ => .error (.noMappingFor l)
        | [] => .ok (rename_labels mapping a)
      else .ok (rename_labels mapping a)

/-- `LabelMapper.__call__` with the state of `current_file` made explicit:
the method body contains no write to `current_file`, so the record comes
back unchanged next to the computed result. -/
def labelMapperCallWithState (mapping : List (String × String))
    (keep_missing : Bool) (item : Item) :
    Item × Except MapperErr Annot :=
  (item, labelMapperCall mapping keep_missing item)

/-! ### Track indices of the loaded annotations (C2, C9) -/

/-- The global indices attached by `enumFrom` are strictly increasing. -/
theorem pairwise_fst_lt_enumFrom {α : Type} (n : Nat) (l : List α) :
    (l.enumFrom n).Pairwise (fun a b => a.1 < b.1) := by
  induction l generalizing n with
  | nil => simp
  | cons x xs ih =>
      refine List.Pairwise.cons ?_ (ih (n + 1))
      rintro ⟨i, y⟩ hb
      have h := List.mk_mem_enumFrom_iff_le_and_getElem?_sub.1 hb
      simpa using Nat.lt_of_succ_le h.1

/-- The global indices attached by `enum` are strictly increasing. -/
theorem pairwise_fst_lt_enum {α : Type} (l : List α) :
    (l.enum).Pairwise (fun a b => a.1 < b.1) :=
  pairwise_fst_lt_enumFrom 0 l

/-- Within one uri group the attached global row indices are strictly
increasing. -/
theorem pairwise_fst_lt_groupRows {α : Type} (uriOf : α → String)
    (rows : List α) (u : String) :
    (groupRows uriOf rows u).Pairwise (fun a b => a.1 < b.1) :=
  List.Pairwise.sublist (List.filter_sublist _) (pairwise_fst_lt_enum rows)

/-- A member of a uri group is the row stored at its attached global index,
and carries that uri. -/
theorem mem_groupRows {α : Type} {uriOf : α → String} {rows : List α}
    {u : String} {p : Nat × α} (h : p ∈ groupRows uriOf rows u) :
    rows[p.1]? = some p.2 ∧ uriOf p.2 = u := by
  have h' := List.mem_filter.1 h
  refine ⟨?_, by simpa using h'.2⟩
  obtain ⟨i, r⟩ := p
  exact List.mk_mem_enum_iff_getElem?.1 h'.1

/-- Interleaved-uri STM rows: uri `A` at file rows 0 and 2, uri `B` at
file row 1. -/
def stmRowsInterleaved : List StmRow :=
  [⟨"A", "s1", 0, 1⟩, ⟨"B", "s2", 0, 1⟩, ⟨"A", "s3", 1, 2⟩]

/-- RTTM rows of a single uri whose middle row has a filtered-out type. -/
def rttmRowsFiltered : List RttmRow :=
  [⟨"SPEAKER", "A", 0, 1, "s1"⟩, ⟨"LECTURE", "A", 1, 1, "s2"⟩,
   ⟨"SPEAKER", "A", 2, 1, "s3"⟩]

/-- C2 counterexample: track indices are **not** the 0-based positions of
the kept rows within their group.  For the interleaved STM file the group
of uri `A` holds its rows at within-group positions 0 and 1, yet the
assigned track indices are `[0, 2]`; likewise for an RTTM file whose
middle row is dropped by the `keep_type` filter.  The claimed contiguous
group-relative numbering would give `[0, 1]` in both cases. -/
theorem load_track_index_counterexample :
    (load_stm stmRowsInterleaved "A").map (fun a => a.tracks.map (·.track))
      = some [0, 2]
    ∧ (load_rttm rttmRowsFiltered "SPEAKER" "A").map
        (fun a => a.tracks.map (·.track)) = some [0, 2]
    ∧ ([0, 2] : List Nat) ≠ [0, 1] := by
  refine ⟨by decide, by decide, by decide⟩

/-- C2 amended: the track index of each kept row is that row's 0-based
position in the *whole file* (the global `pd.read_csv` row index): within
each per-uri group the track indices are strictly increasing in file order
(hence unique per uri), and each track is built exactly from the file row
stored at its index — but they are neither contiguous nor group-relative. -/
theorem load_track_index_is_global_row_position :
    ∀ (rows : List RttmRow) (srows : List StmRow) (keep_type u : String)
      (a b : Annot),
      (load_rttm rows keep_type u = some a →
        (a.tracks.map (·.track)).Pairwise (· < ·)
        ∧ (a.tracks.map (·.track)).Nodup
        ∧ ∀ t ∈ a.tracks, ∃ r, rows[t.track]? = some r ∧ r.uri = u
            ∧ r.ty = keep_type ∧ t = rttmTrack (t.track, r))
      ∧ (load_stm srows u = some b →
        (b.tracks.map (·.track)).Pairwise (· < ·)
        ∧ (b.tracks.map (·.track)).Nodup
        ∧ ∀ t ∈ b.tracks, ∃ r, srows[t.track]? = some r ∧ r.uri = u
            ∧ t = stmTrack (t.track, r)) := by
  intro rows srows keep_type u a b
  constructor
  · intro h
    have ha : a.tracks = (groupRows (·.uri) rows u).filterMap
        (fun p => if p.2.ty ≠ keep_type then none
                  else some (rttmTrack p)) := by
      simp only [load_rttm] at h
      split at h
      · injection h with h'
        rw [← h']
      · cases h
    have hpw : (a.tracks.map (·.track)).Pairwise (· < ·) := by
      rw [ha, List.pairwise_map]
      refine List.Pairwise.filterMap _ ?_
        (pairwise_fst_lt_groupRows (·.uri) rows u)
      rintro p p' hlt t ht t' ht'
      by_cases hty : p.2.ty ≠ keep_type
      · simp [hty] at ht
      · by_cases hty' : p'.2.ty ≠ keep_type
        · simp [hty'] at ht'
        · simp only [if_neg hty, Option.mem_some_iff] at ht
          simp only [if_neg hty', Option.mem_some_iff] at ht'
          rw [← ht, ← ht']
          exact hlt
    refine ⟨hpw, hpw.nodup, ?_⟩
    intro t ht
    rw [ha] at ht
    obtain ⟨p, hp, hg⟩ := List.mem_filterMap.1 ht
    by_cases hty : p.2.ty ≠ keep_type
    · simp [hty] at hg
    · rw [if_neg hty] at hg
      injection hg with hg
      obtain ⟨hrow, huri⟩ := mem_groupRows hp
      obtain ⟨i, r⟩ := p
      have htrk : t.track = i := by rw [← hg]; rfl
      refine ⟨r, ?_, huri, Decidable.not_not.1 hty, ?_⟩
      · rw [htrk]; exact hrow
      · rw [htrk, ← hg]
  · intro h
    have hb : b.tracks = (groupRows (·.uri) srows u).map stmTrack := by
      simp only [load_stm] at h
      split at h
      · injection h with h'
        rw [← h']
      · cases h
    have hpw : (b.tracks.map (·.track)).Pairwise (· < ·) := by
      rw [hb, List.pairwise_map, List.pairwise_map]
      exact pairwise_fst_lt_groupRows (·.uri) srows u
    refine ⟨hpw, hpw.nodup, ?_⟩
    intro t ht
    rw [hb] at ht
    obtain ⟨p, hp, hg⟩ := List.mem_map.1 ht
    obtain ⟨hrow, huri⟩ := mem_groupRows hp
    obtain ⟨i, r⟩ := p
    have htrk : t.track = i := by rw [← hg]; rfl
    refine ⟨r, ?_, huri, ?_⟩
    · rw [htrk]; exact hrow
    · rw [htrk, ← hg]

/-- Witness for the amended C2: at the two concrete files above, the
conclusions of the theorem instantiate to the tracks `[0, 2]` of uri `A`,
each built from the file row at its own global index. -/
theorem load_track_index_is_global_row_position_witness :
    ((Annot.mk (some "A")
        [⟨⟨0, 1⟩, 0, "s1"⟩, ⟨⟨2, 3⟩, 2, "s3"⟩]).tracks.map (·.track)).Nodup
    ∧ (∃ r, rttmRowsFiltered[(2 : Nat)]? = some r ∧ r.uri = "A"
        ∧ r.ty = "SPEAKER"
        ∧ (Track.mk ⟨2, 3⟩ 2 "s3") = rttmTrack (2, r))
    ∧ (∃ r, stmRowsInterleaved[(2 : Nat)]? = some r ∧ r.uri = "A"
        ∧ (Track.mk ⟨1, 2⟩ 2 "s3") = stmTrack (2, r)) := by
  have h := load_track_index_is_global_row_position rttmRowsFiltered
    stmRowsInterleaved "SPEAKER" "A"
    (Annot.mk (some "A") [⟨⟨0, 1⟩, 0, "s1"⟩, ⟨⟨2, 3⟩, 2, "s3"⟩])
    (Annot.mk (some "A") [⟨⟨0, 1⟩, 0, "s1"⟩, ⟨⟨1, 2⟩, 2, "s3"⟩])
  have h1 := h.1 (by decide)
  have h2 := h.2 (by decide)
  exact ⟨h1.2.1, h1.2.2 ⟨⟨2, 3⟩, 2, "s3"⟩ (by decide),
    h2.2.2 ⟨⟨1, 2⟩, 2, "s3"⟩ (by decide)⟩

/-- C9: `load_rttm` has an entry exactly for the uris occurring in the
file, and when every row of a uri has a type different from `keep_type`
that entry is the empty Annot for the uri — the filter drops rows,
never uri keys. -/
theorem load_rttm_keeps_every_uri :
    ∀ (rows : List RttmRow) (keep_type u : String),
      ((load_rttm rows keep_type u).isSome ↔ u ∈ rows.map (·.uri))
      ∧ ((∀ r ∈ rows, r.uri = u → r.ty ≠ keep_type) →
          u ∈ rows.map (·.uri) →
          load_rttm rows keep_type u
            = some { uri := some u, tracks := [] }) := by
  intro rows keep_type u
  constructor
  · by_cases h : u ∈ rows.map (·.uri) <;> simp [load_rttm, h]
  · intro hall hmem
    simp only [load_rttm, if_pos hmem]
    have hnil : (groupRows (·.uri) rows u).filterMap
        (fun p => if p.2.ty ≠ keep_type then none
                  else some (rttmTrack p)) = [] := by
      rw [List.filterMap_eq_nil_iff]
      intro p hp
      obtain ⟨hrow, huri⟩ := mem_groupRows hp
      have hr : p.2 ∈ rows := List.getElem?_mem hrow
      exact if_pos (hall p.2 hr huri)
    rw [hnil]

/-- Witness for C9: a file whose only row for uri `A` has type `LECTURE`
still yields an entry for `A`, holding the empty Annot. -/
theorem load_rttm_keeps_every_uri_witness :
    load_rttm [⟨"LECTURE", "A", 0, 1, "s1"⟩] "SPEAKER" "A"
      = some { uri := some "A", tracks := [] } :=
  (load_rttm_keeps_every_uri [⟨"LECTURE", "A", 0, 1, "s1"⟩] "SPEAKER" "A").2
    (by decide) (by decide)

/-! ### `load_lst` (C3) -/

/-- The lines of `readlines` concatenate back to the file content: no
character is lost or reordered. -/
theorem splitLines_join (cs : List Char) : (splitLines cs).flatten = cs := by
  induction cs with
  | nil => rfl
  | cons c cs' ih =>
      by_cases h : c = '\n'
      · subst h
        simp [splitLines, ih]
      · simp only [splitLines, if_neg h]
        cases hs : splitLines cs' with
        | nil =>
            rw [hs] at ih
            simp [← ih]
        | cons l ls =>
            rw [hs] at ih
            simp [← ih]

/-- `readlines` never yields an empty line. -/
theorem splitLines_ne_nil (cs : List Char) :
    ∀ l ∈ splitLines cs, l ≠ [] := by
  induction cs with
  | nil => simp [splitLines]
  | cons c cs' ih =>
      by_cases h : c = '\n'
      · subst h
        simp only [splitLines, if_pos rfl]
        intro l hl
        rcases List.mem_cons.1 hl with rfl | hl'
        · simp
        · exact ih l hl'
      · simp only [splitLines, if_neg h]
        intro l hl
        cases hs : splitLines cs' with
        | nil =>
            rw [hs] at hl
            simp only [List.mem_singleton] at hl
            subst hl
            simp
        | cons a as =>
            rw [hs] at hl
            rcases List.mem_cons.1 hl with rfl | hmem
            · simp
            · exact ih l (by rw [hs]; exact List.mem_cons_of_mem a hmem)

/-- C3 counterexample: on a file with a trailing blank line `load_lst`
*does* return an empty-string entry — the list comprehension strips each
line but filters nothing. -/
theorem load_lst_counterexample :
    load_lst "x\n\n" = ["x", ""] ∧ "" ∈ load_lst "x\n\n" := by
  refine ⟨by decide, by decide⟩

/-- C3 amended: `load_lst` returns the ordered sequence of *all* trimmed
lines of the file, one entry per line (duplicates preserved): the lines
partition the file content in order, every line is non-empty, and entry
`i` of the result is exactly the stripped line `i` — so blank lines
(including a trailing one) yield empty-string entries. -/
theorem load_lst_all_trimmed_lines :
    ∀ contents : String,
      (splitLines contents.data).flatten = contents.data
      ∧ (load_lst contents).length = (readlines contents).length
      ∧ (∀ i : Nat,
          (load_lst contents)[i]? = ((readlines contents)[i]?).map pyStrip)
      ∧ ∀ l ∈ readlines contents, l ≠ "" := by
  intro contents
  refine ⟨splitLines_join contents.data, by simp [load_lst], ?_, ?_⟩
  · intro i
    simp [load_lst]
  · intro l hl
    obtain ⟨l', hl', rfl⟩ := List.mem_map.1 hl
    have := splitLines_ne_nil contents.data l' hl'
    simpa [String.ext_iff] using this

/-- Witness for the amended C3: on the file `"x\n\n"` the two lines are
`"x\n"` and `"\n"`, both non-empty, and entry 1 of the result is the
stripped second line — the empty string. -/
theorem load_lst_all_trimmed_lines_witness :
    (splitLines ("x\n\n" : String).data).flatten = ("x\n\n" : String).data
    ∧ (load_lst "x\n\n")[1]? = ((readlines "x\n\n")[1]?).map pyStrip
    ∧ ("\n" : String) ≠ "" := by
  have h := load_lst_all_trimmed_lines "x\n\n"
  exact ⟨h.1, h.2.2.1 1, h.2.2.2 "\n" (by decide)⟩

/-! ### `get_annotated` (C4) and `get_unique_identifier` (C8) -/

/-- C4: `get_annotated` resolves the annotated region by the strict
three-tier precedence — `annotated` verbatim with no warning whenever that
key is present (whatever else is); otherwise `[0, duration)` with a
warning whenever `duration` is present; otherwise the `annotation` extent
with the stronger warning. -/
theorem get_annotated_precedence :
    ∀ item : Item,
      (∀ t, item.annotated = some t →
          get_annotated item = .ok (t, .noWarning))
      ∧ (item.annotated = none → ∀ d, item.duration = some d →
          get_annotated item = .ok (⟨[⟨0, d⟩], none⟩, .durationApprox))
      ∧ (item.annotated = none → item.duration = none →
          ∀ a, item.annot = some a →
          get_annotated item
            = .ok (⟨[extent a], none⟩, .extentFallback)) := by
  intro item
  refine ⟨?_, ?_, ?_⟩
  · intro t ht
    simp [get_annotated, ht]
  · intro h1 d h2
    simp [get_annotated, h1, h2]
  · intro h1 h2 a h3
    simp [get_annotated, h1, h2, h3]

/-- Witness for C4: on an item carrying all three keys simultaneously the
`annotated` timeline wins with no warning; dropping `annotated` makes
`duration` win with a warning; dropping `duration` too falls back to the
`annotation` extent with the stronger warning. -/
theorem get_annotated_precedence_witness :
    get_annotated ⟨none, none, none,
        some ⟨[⟨1, 2⟩], none⟩, some 9,
        some ⟨none, [⟨⟨3, 4⟩, 0, "s"⟩]⟩⟩
      = .ok (⟨[⟨1, 2⟩], none⟩, .noWarning)
    ∧ get_annotated ⟨none, none, none, none, some 9,
        some ⟨none, [⟨⟨3, 4⟩, 0, "s"⟩]⟩⟩
      = .ok (⟨[⟨0, 9⟩], none⟩, .durationApprox)
    ∧ get_annotated ⟨none, none, none, none, none,
        some ⟨none, [⟨⟨3, 4⟩, 0, "s"⟩]⟩⟩
      = .ok (⟨[⟨3, 4⟩], none⟩, .extentFallback) := by
  refine ⟨(get_annotated_precedence ⟨none, none, none,
      some ⟨[⟨1, 2⟩], none⟩, some 9,
      some ⟨none, [⟨⟨3, 4⟩, 0, "s"⟩]⟩⟩).1 _ rfl,
    (get_annotated_precedence ⟨none, none, none, none, some 9,
      some ⟨none, [⟨⟨3, 4⟩, 0, "s"⟩]⟩⟩).2.1 rfl 9 rfl, ?_⟩
  have h := (get_annotated_precedence ⟨none, none, none, none, none,
      some ⟨none, [⟨⟨3, 4⟩, 0, "s"⟩]⟩⟩).2.2 rfl rfl
    ⟨none, [⟨⟨3, 4⟩, 0, "s"⟩]⟩ rfl
  rw [h]
  rfl

/-- C8: `get_unique_identifier` returns `"{database}/" + uri +
"_{channel}"`, the prefix present exactly when `database` is non-null and
the suffix exactly when `channel` is non-null, and fails when `uri` is
absent. -/
theorem get_unique_identifier_format :
    ∀ item : Item,
      (item.uri = none →
          get_unique_identifier item = .error "KeyError: uri")
      ∧ (∀ u, item.uri = some u → item.database = none →
          item.channel = none → get_unique_identifier item = .ok u)
      ∧ (∀ u db, item.uri = some u → item.database = some db →
          item.channel = none →
          get_unique_identifier item = .ok (db ++ "/" ++ u))
      ∧ (∀ u c, item.uri = some u → item.database = none →
          item.channel = some c →
          get_unique_identifier item = .ok (u ++ "_" ++ toString c))
      ∧ (∀ u db c, item.uri = some u → item.database = some db →
          item.channel = some c →
          get_unique_identifier item
            = .ok (db ++ "/" ++ u ++ "_" ++ toString c)) := by
  intro item
  refine ⟨?_, ?_, ?_, ?_, ?_⟩
  · intro h
    simp [get_unique_identifier, h]
  · intro u h1 h2 h3
    simp [get_unique_identifier, h1, h2, h3]
  · intro u db h1 h2 h3
    simp [get_unique_identifier, h1, h2, h3, String.append_assoc]
  · intro u c h1 h2 h3
    simp [get_unique_identifier, h1, h2, h3, String.append_assoc]
  · intro u db c h1 h2 h3
    simp [get_unique_identifier, h1, h2, h3, String.append_assoc]

/-- Witness for C8: the spec's examples — `{"uri":"X"}` gives `"X"`, adding
`database="D"` gives `"D/X"`, further adding `channel=1` gives `"D/X_1"`. -/
theorem get_unique_identifier_format_witness :
    get_unique_identifier ⟨none, some "X", none, none, none, none⟩
      = .ok "X"
    ∧ get_unique_identifier ⟨some "D", some "X", none, none, none, none⟩
      = .ok "D/X"
    ∧ get_unique_identifier ⟨some "D", some "X", some 1, none, none, none⟩
      = .ok "D/X_1" := by
  refine ⟨(get_unique_identifier_format
      ⟨none, some "X", none, none, none, none⟩).2.1 "X" rfl rfl rfl, ?_, ?_⟩
  · have h := (get_unique_identifier_format
      ⟨some "D", some "X", none, none, none, none⟩).2.2.1 "X" "D" rfl rfl rfl
    rw [h]
    rfl
  · have h := (get_unique_identifier_format
      ⟨some "D", some "X", some 1, none, none, none⟩).2.2.2.2
      "X" "D" 1 rfl rfl rfl
    rw [h]
    rfl

/-! ### LabelMapper (C5, C10) -/

/-- C5: with `keep_missing=false` the call fails with an error naming one
of the labels missing from the mapping whenever one exists; with
`keep_missing=true`, or when no label is missing, it returns the renamed
annotation, in which every track keeps its segment and track index and its
label is either substituted via the mapping or (when unmapped) passed
through unchanged — so no output label is ever invented. -/
theorem labelMapper_strict_semantics :
    ∀ (mapping : List (String × String)) (keep_missing : Bool) (item : Item)
      (ann : Annot), item.annot = some ann →
      (keep_missing = false → missingLabels mapping ann ≠ [] →
        ∃ l, l ∈ missingLabels mapping ann
          ∧ labelMapperCall mapping keep_missing item
              = .error (.noMappingFor l))
      ∧ (keep_missing = true ∨ missingLabels mapping ann = [] →
        labelMapperCall mapping keep_missing item
          = .ok (rename_labels mapping ann))
      ∧ List.Forall₂ (fun tin tout =>
            tout.segment = tin.segment ∧ tout.track = tin.track
            ∧ (alookup mapping tin.label = some tout.label
               ∨ (alookup mapping tin.label = none
                  ∧ tout.label = tin.label)))
          ann.tracks (rename_labels mapping ann).tracks := by
  intro mapping keep_missing item ann hann
  refine ⟨?_, ?_, ?_⟩
  · intro hkm hne
    subst hkm
    simp only [labelMapperCall, hann]
    cases hm : missingLabels mapping ann with
    | nil => exact absurd hm hne
    | cons l ls =>
        exact ⟨l, List.mem_cons_self l ls, by simp⟩
  · rintro (hkm | hm)
    · subst hkm
      simp [labelMapperCall, hann]
    · cases keep_missing with
      | true => simp [labelMapperCall, hann]
      | false => simp [labelMapperCall, hann, hm]
  · simp only [rename_labels]
    rw [List.forall₂_map_right_iff, List.forall₂_same]
    intro t ht
    refine ⟨rfl, rfl, ?_⟩
    cases hl : alookup mapping t.label with
    | none => exact Or.inr ⟨rfl, by simp⟩
    | some l' => exact Or.inl (by simp)

/-- Witness for C5: the spec's test — `LabelMapper({"A":"M"},
keep_missing=false)` on an annotation containing only label `"A"` succeeds
and renames it to `"M"`; on an annotation also containing the unmapped
`"B"` it fails naming `"B"`. -/
theorem labelMapper_strict_semantics_witness :
    labelMapperCall [("A", "M")] false
        ⟨none, none, none, none, none,
          some ⟨none, [⟨⟨0, 1⟩, 0, "A"⟩]⟩⟩
      = .ok (rename_labels [("A", "M")] ⟨none, [⟨⟨0, 1⟩, 0, "A"⟩]⟩)
    ∧ rename_labels [("A", "M")] ⟨none, [⟨⟨0, 1⟩, 0, "A"⟩]⟩
      = ⟨none, [⟨⟨0, 1⟩, 0, "M"⟩]⟩
    ∧ ∃ l, l ∈ missingLabels [("A", "M")]
          ⟨none, [⟨⟨0, 1⟩, 0, "A"⟩, ⟨⟨1, 2⟩, 1, "B"⟩]⟩
        ∧ labelMapperCall [("A", "M")] false
            ⟨none, none, none, none, none,
              some ⟨none, [⟨⟨0, 1⟩, 0, "A"⟩, ⟨⟨1, 2⟩, 1, "B"⟩]⟩⟩
          = .error (.noMappingFor l) := by
  refine ⟨(labelMapper_strict_semantics [("A", "M")] false
      ⟨none, none, none, none, none, some ⟨none, [⟨⟨0, 1⟩, 0, "A"⟩]⟩⟩
      ⟨none, [⟨⟨0, 1⟩, 0, "A"⟩]⟩ rfl).2.1 (Or.inr (by decide)),
    by decide,
    (labelMapper_strict_semantics [("A", "M")] false
      ⟨none, none, none, none, none,
        some ⟨none, [⟨⟨0, 1⟩, 0, "A"⟩, ⟨⟨1, 2⟩, 1, "B"⟩]⟩⟩
      ⟨none, [⟨⟨0, 1⟩, 0, "A"⟩, ⟨⟨1, 2⟩, 1, "B"⟩]⟩ rfl).1 rfl (by decide)⟩

/-- C10: when the strict (`keep_missing=false`) call fails on an unmapped
label, the failure happens before any renaming: the call returns the error
without producing any renamed annotation, and the `current_file` record —
in particular its `annotation` entry — comes back unchanged (the method
body never writes to it). -/
theorem labelMapper_failure_precedes_rename :
    ∀ (mapping : List (String × String)) (item : Item) (ann : Annot),
      item.annot = some ann → missingLabels mapping ann ≠ [] →
      (∃ l, l ∈ missingLabels mapping ann
        ∧ labelMapperCallWithState mapping false item
            = (item, .error (.noMappingFor l)))
      ∧ (∀ a : Annot, labelMapperCall mapping false item ≠ .ok a)
      ∧ (labelMapperCallWithState mapping false item).1.annot
          = some ann := by
  intro mapping item ann hann hne
  have hcall : ∃ l, l ∈ missingLabels mapping ann
      ∧ labelMapperCall mapping false item = .error (.noMappingFor l) := by
    simp only [labelMapperCall, hann]
    cases hm : missingLabels mapping ann with
    | nil => exact absurd hm hne
    | cons l ls =>
        exact ⟨l, List.mem_cons_self l ls, by simp⟩
  obtain ⟨l, hl, herr⟩ := hcall
  refine ⟨⟨l, hl, ?_⟩, ?_, hann⟩
  · simp [labelMapperCallWithState, herr]
  · intro a ha
    rw [herr] at ha
    cases ha

/-- Witness for C10: on the failing annotation containing the unmapped
label `"B"`, the record comes back unchanged next to the error and no
renamed annotation is produced. -/
theorem labelMapper_failure_precedes_rename_witness :
    (∃ l, l ∈ missingLabels [("A", "M")]
          ⟨none, [⟨⟨0, 1⟩, 0, "A"⟩, ⟨⟨1, 2⟩, 1, "B"⟩]⟩
      ∧ labelMapperCallWithState [("A", "M")] false
          ⟨none, none, none, none, none,
            some ⟨none, [⟨⟨0, 1⟩, 0, "A"⟩, ⟨⟨1, 2⟩, 1, "B"⟩]⟩⟩
        = (⟨none, none, none, none, none,
            some ⟨none, [⟨⟨0, 1⟩, 0, "A"⟩, ⟨⟨1, 2⟩, 1, "B"⟩]⟩⟩,
           .error (.noMappingFor l)))
    ∧ ∀ a : Annot, labelMapperCall [("A", "M")] false
        ⟨none, none, none, none, none,
          some ⟨none, [⟨⟨0, 1⟩, 0, "A"⟩, ⟨⟨1, 2⟩, 1, "B"⟩]⟩⟩ ≠ .ok a := by
  have h := labelMapper_failure_precedes_rename [("A", "M")]
    ⟨none, none, none, none, none,
      some ⟨none, [⟨⟨0, 1⟩, 0, "A"⟩, ⟨⟨1, 2⟩, 1, "B"⟩]⟩⟩
    ⟨none, [⟨⟨0, 1⟩, 0, "A"⟩, ⟨⟨1, 2⟩, 1, "B"⟩]⟩ rfl (by decide)
  exact ⟨h.1, h.2.1⟩

end PyannoteDB
